import Mathlib

/-!
Shallow embedding of the `canvas-explorer` converter core
(`src/convert/src/io/pxls.rs` and `src/convert/src/main.rs`).

Byte strings are modelled as `List Nat` (each element a byte value).
Rust `String` values are represented by their UTF-8 byte sequences, which
is faithful because Rust string equality is byte equality.

The date-time handling of the `chrono` dependency (used by `read_time` and
by the `Display` implementation) is modelled at byte level:
`NaiveDateTime::parse_from_str` with the fixed format
`"%Y-%m-%d %H:%M:%S,%3f"` and `timestamp_millis` / `from_timestamp_millis`.
The civil-calendar day arithmetic uses the standard Gregorian
days-from-civil algorithm, which agrees with chrono's internal
representation.  `Int` division `/` below is floor division for the
positive literal divisors used here, matching `div_euclid` in the Rust
code paths being modelled.
-/

/-- UTF-8 bytes of an ASCII Lean string literal (all inputs used are ASCII). -/
def ascii (s : String) : List Nat := s.data.map Char.toNat

instance instDecEqExcept {ε α : Type} [DecidableEq ε] [DecidableEq α] :
    DecidableEq (Except ε α) := fun x y =>
  match x, y with
  | .ok a, .ok b =>
    if h : a = b then .isTrue (congrArg Except.ok h)
    else .isFalse (fun hc => h (Except.ok.inj hc))
  | .error a, .error b =>
    if h : a = b then .isTrue (congrArg Except.error h)
    else .isFalse (fun hc => h (Except.error.inj hc))
  | .ok _, .error _ => .isFalse (fun hc => Except.noConfusion hc)
  | .error _, .ok _ => .isFalse (fun hc => Except.noConfusion hc)

/-- ASCII decimal digit test. -/
def isDigit (b : Nat) : Bool := 48 ≤ b && b ≤ 57

/-- ASCII whitespace bytes, modelling `str::trim_start` as used by chrono's
numeric/space parse items on the ASCII inputs of this format. -/
def isWs (b : Nat) : Bool := b = 32 || b = 9 || b = 10 || b = 13 || b = 11 || b = 12

/-- Drop leading whitespace (chrono trims before numeric items and on space items). -/
def trimStart (l : List Nat) : List Nat := l.dropWhile isWs

/-- UTF-8 continuation byte test (`0x80..=0xBF`). -/
def contB (b : Nat) : Bool := 128 ≤ b && b ≤ 191

/-- UTF-8 validity of a byte sequence, following the standard table used by
`std::str::from_utf8` / `String::from_utf8` in Rust. -/
def isValidUtf8 : List Nat → Bool
  | [] => true
  | b :: rest =>
    if b ≤ 127 then isValidUtf8 rest
    else
      match rest with
      | c1 :: r1 =>
        if 194 ≤ b && b ≤ 223 then contB c1 && isValidUtf8 r1
        else
          match r1 with
          | c2 :: r2 =>
            if b = 224 then (160 ≤ c1 && c1 ≤ 191) && contB c2 && isValidUtf8 r2
            else if (225 ≤ b && b ≤ 236) || b = 238 || b = 239 then
              contB c1 && contB c2 && isValidUtf8 r2
            else if b = 237 then (128 ≤ c1 && c1 ≤ 159) && contB c2 && isValidUtf8 r2
            else
              match r2 with
              | c3 :: r3 =>
                if b = 240 then (144 ≤ c1 && c1 ≤ 191) && contB c2 && contB c3 && isValidUtf8 r3
                else if 241 ≤ b && b ≤ 243 then contB c1 && contB c2 && contB c3 && isValidUtf8 r3
                else if b = 244 then (128 ≤ c1 && c1 ≤ 143) && contB c2 && contB c3 && isValidUtf8 r3
                else false
              | [] => false
          | [] => false
      | [] => false

/-- Numeric value of a list of ASCII digit bytes (most significant first). -/
def digitsVal (l : List Nat) : Nat := l.foldl (fun acc b => acc * 10 + (b - 48)) 0

/-- Take up to `max` leading ASCII digits; returns (digits, rest).
Models the greedy bounded digit scan of chrono's `scan::number`. -/
def takeDigits : Nat → List Nat → List Nat × List Nat
  | _, [] => ([], [])
  | 0, l => ([], l)
  | Nat.succ m, b :: r =>
    if isDigit b then
      let p := takeDigits m r
      (b :: p.1, p.2)
    else ([], b :: r)

/-- Model of chrono `scan::number(s, min, max)`: between `min` and `max`
digits, greedy; the accumulated value must fit in an `i64`. -/
def scanNum (minD maxD : Nat) (s : List Nat) : Option (Nat × List Nat) :=
  let p := takeDigits maxD s
  if p.1.length < minD then none
  else if digitsVal p.1 ≤ 9223372036854775807 then some (digitsVal p.1, p.2) else none

/-- Model of chrono's parsing of the signed numeric item `%Y` (width 4):
leading whitespace is trimmed; with an explicit sign the digit count is
unbounded, otherwise at most 4 digits are consumed. -/
def scanYear (s : List Nat) : Option (Int × List Nat) :=
  match trimStart s with
  | [] => none
  | b :: r =>
    if b = 45 then (scanNum 1 r.length r).map (fun p => (-(p.1 : Int), p.2))
    else if b = 43 then (scanNum 1 r.length r).map (fun p => ((p.1 : Int), p.2))
    else (scanNum 1 4 (b :: r)).map (fun p => ((p.1 : Int), p.2))

/-- Model of chrono's parsing of an unsigned numeric item of the given width
(`%m`, `%d`, `%H`, `%M`, `%S`): trim leading whitespace, then 1..width digits. -/
def scanUnsigned (width : Nat) (s : List Nat) : Option (Nat × List Nat) :=
  scanNum 1 width (trimStart s)

/-- Require an exact literal byte (chrono literal items match exactly). -/
def expectByte (c : Nat) (s : List Nat) : Option (List Nat) :=
  match s with
  | b :: r => if b = c then some r else none
  | [] => none

/-- Fields collected by parsing `"%Y-%m-%d %H:%M:%S,%3f"`. -/
structure DtFields where
  year : Int
  month : Nat
  day : Nat
  hour : Nat
  minute : Nat
  second : Nat
  millis : Nat
deriving DecidableEq, Repr

/-- Item-by-item parse of `DATE_FMT = "%Y-%m-%d %H:%M:%S,%3f"`, following
chrono's `parse` loop: numeric items trim leading whitespace, literals match
exactly, the lone space in the format is a Space item (trims any amount of
whitespace), and `%3f` requires exactly 3 digits.  The remainder must be
empty (`parse_from_str` rejects trailing input). -/
def parseDtItems (s : List Nat) : Option DtFields := do
  let p1 ← scanYear s
  let s1 ← expectByte 45 p1.2
  let p2 ← scanUnsigned 2 s1
  let s2 ← expectByte 45 p2.2
  let p3 ← scanUnsigned 2 s2
  let s3 := trimStart p3.2
  let p4 ← scanUnsigned 2 s3
  let s4 ← expectByte 58 p4.2
  let p5 ← scanUnsigned 2 s4
  let s5 ← expectByte 58 p5.2
  let p6 ← scanUnsigned 2 s5
  let s6 ← expectByte 44 p6.2
  let p7 ← scanNum 3 3 s6
  if p7.2 = [] then
    some ⟨p1.1, p2.1, p3.1, p4.1, p5.1, p6.1, p7.1⟩
  else none

/-- Proleptic Gregorian leap-year test (divisibility, as in chrono). -/
def isLeapYear (y : Int) : Bool := y % 4 = 0 && (!(y % 100 = 0) || y % 400 = 0)

/-- Days in a Gregorian month. -/
def daysInMonth (y : Int) : Nat → Nat
  | 1 => 31
  | 2 => if isLeapYear y then 29 else 28
  | 3 => 31
  | 4 => 30
  | 5 => 31
  | 6 => 30
  | 7 => 31
  | 8 => 31
  | 9 => 30
  | 10 => 31
  | 11 => 30
  | 12 => 31
  | _ => 0

/-- Validity checks applied by chrono when the parsed fields are converted
to a `NaiveDateTime` (`from_ymd_opt` / `from_hms_nano_opt`): year within
chrono's supported range, a real calendar date, and a real time of day
(second 60 is accepted as a leap second). -/
def checkValid (f : DtFields) : Bool :=
  decide (-262144 ≤ f.year) && decide (f.year ≤ 262143) &&
  decide (1 ≤ f.month) && decide (f.month ≤ 12) &&
  decide (1 ≤ f.day) && decide (f.day ≤ daysInMonth f.year f.month) &&
  decide (f.hour ≤ 23) && decide (f.minute ≤ 59) && decide (f.second ≤ 60) &&
  decide (f.millis ≤ 999)

/-- Full model of `NaiveDateTime::parse_from_str(s, DATE_FMT)`: item parse
followed by calendar validation. -/
def parseDateTime (s : List Nat) : Option DtFields :=
  match parseDtItems s with
  | some f => if checkValid f then some f else none
  | none => none

/-- Day number since 1970-01-01 of a Gregorian calendar date (the standard
days-from-civil algorithm; chrono's date arithmetic computes the same day
number).  `/` on `Int` is floor division here (positive divisors). -/
def daysFromCivil (y : Int) (m d : Nat) : Int :=
  let yAdj : Int := if m ≤ 2 then y - 1 else y
  let era : Int := yAdj / 400
  let yoe : Int := yAdj - era * 400
  let mp : Nat := if m ≤ 2 then m + 9 else m - 3
  let doy : Nat := (153 * mp + 2) / 5 + (d - 1)
  let doe : Int := yoe * 365 + yoe / 4 - yoe / 100 + (doy : Int)
  era * 146097 + doe - 719468

/-- Milliseconds since the Unix epoch of parsed fields, as computed by
`t.and_utc().timestamp_millis()`.  A leap second (`second = 60`) is stored
by chrono as second 59 with 1,000,000,000 extra nanoseconds, so it
contributes one extra second worth of milliseconds. -/
def toMillis (f : DtFields) : Int :=
  86400000 * daysFromCivil f.year f.month f.day
    + 1000 * (3600 * (f.hour : Int) + 60 * (f.minute : Int) + (min f.second 59 : Nat))
    + (if f.second = 60 then 1000 else 0) + (f.millis : Int)

/-- Error taxonomy of the decoder (the Rust code uses distinct `anyhow`
errors; these constructors name the distinct failure sources). -/
inductive PxlsError where
  | UnexpectedEof : PxlsError
  | TrailingData : List Nat → PxlsError
  | InvalidTimestamp : PxlsError
  | InvalidEncoding : PxlsError
  | InvalidInteger : PxlsError
  | UnknownAction : List Nat → PxlsError
deriving DecidableEq, Repr

/-- Model of `read_time`: `std::str::from_utf8` then
`NaiveDateTime::parse_from_str(_, DATE_FMT)` then `timestamp_millis`. -/
def read_time (data : List Nat) : Except PxlsError Int :=
  if isValidUtf8 data then
    match parseDateTime data with
    | some f => .ok (toMillis f)
    | none => .error .InvalidTimestamp
  else .error .InvalidEncoding

/-- The `PxlsAction` enumeration from `io/pxls.rs`. -/
inductive PxlsAction where
  | Place : PxlsAction
  | Undo : PxlsAction
  | Rollback : PxlsAction
  | RollbackUndo : PxlsAction
  | Overwrite : PxlsAction
  | Nuke : PxlsAction
deriving DecidableEq, Repr

/-- Model of `read_action`: UTF-8 decode, then exact match against the six
labels.  NOTE the mapping here follows the source `match` in `read_action`
(lines 156-164 of `io/pxls.rs`): `"mod overwrite" => Overwrite` and
`"rollback" => Rollback`, which is NOT the inverse of the `Display`
implementation for `PxlsAction`. -/
def read_action (data : List Nat) : Except PxlsError PxlsAction :=
  if isValidUtf8 data then
    if data = ascii "user place" then .ok .Place
    else if data = ascii "user undo" then .ok .Undo
    else if data = ascii "mod overwrite" then .ok .Overwrite
    else if data = ascii "rollback undo" then .ok .RollbackUndo
    else if data = ascii "rollback" then .ok .Rollback
    else if data = ascii "console nuke" then .ok .Nuke
    else .error (.UnknownAction data)
  else .error .InvalidEncoding

/-- The `PxlsUserId` enumeration; each variant carries the raw string
(represented by its UTF-8 bytes). -/
inductive PxlsUserId where
  | Sha256 : List Nat → PxlsUserId
  | Username : List Nat → PxlsUserId
deriving DecidableEq, Repr

/-- Model of `PxlsUserId::as_str` (the raw bytes of either variant). -/
def PxlsUserId.asBytes : PxlsUserId → List Nat
  | .Sha256 id => id
  | .Username id => id

/-- Model of `read_userid`: UTF-8 decode, then classify by raw byte length
(exactly 64 bytes means a SHA-256 content hash). -/
def read_userid (data : List Nat) : Except PxlsError PxlsUserId :=
  if isValidUtf8 data then
    if data.length = 64 then .ok (.Sha256 data) else .ok (.Username data)
  else .error .InvalidEncoding

/-- Model of Rust `str::parse` for an unsigned integer of bit width `w`
(`u32` for coordinates, `u16` for the palette index): an optional leading
`+`, then one or more ASCII digits and nothing else; overflow is an error. -/
def parseUIntRust (w : Nat) (data : List Nat) : Option Nat :=
  let core := match data with
    | 43 :: rest => rest
    | _ => data
  if core ≠ [] && core.all isDigit then
    if digitsVal core < 2 ^ w then some (digitsVal core) else none
  else none

/-- Model of `read_int::<T>`: UTF-8 decode then unsigned decimal parse. -/
def read_int (w : Nat) (data : List Nat) : Except PxlsError Nat :=
  if isValidUtf8 data then
    match parseUIntRust w data with
    | some v => .ok v
    | none => .error .InvalidInteger
  else .error .InvalidEncoding

/-- The decoded record (`PxlsLine` in `io/pxls.rs`). -/
structure PxlsLine where
  time : Int
  pos : Nat × Nat
  index : Nat
  action : PxlsAction
  id : PxlsUserId
deriving DecidableEq, Repr

/-- Separator predicate of `parse_bytes`: the split closure is
`|&b| b == b'\n' || b == b'\t'`, i.e. line feed (10) or tab (9). -/
def isSep (b : Nat) : Bool := b = 10 || b = 9

/-- Model of `slice::split` with the separator predicate above: splits the
byte list at every separator byte, keeping empty components. -/
def splitSep : List Nat → List (List Nat)
  | [] => [[]]
  | b :: r =>
    if isSep b then [] :: splitSep r
    else
      match splitSep r with
      | h :: t => (b :: h) :: t
      | [] => [[b]]

/-- Model of the split iterator's `next()` with the `ok_or(eof)` pattern. -/
def nextPart (parts : List (List Nat)) : Except PxlsError (List Nat × List (List Nat)) :=
  match parts with
  | [] => .error .UnexpectedEof
  | p :: r => .ok (p, r)

/-- Model of `PxlsLine::parse_bytes`: split on tab/line feed, read the six
fields in order (time, id, x, y, index, action), then inspect a single
further component: a present non-empty seventh component is an error
(`bail!("expected eof or newline ...")`); components after the seventh are
never examined by the Rust iterator code. -/
def PxlsLine.parse_bytes (data : List Nat) : Except PxlsError PxlsLine := do
  let parts := splitSep data
  let n1 ← nextPart parts
  let time ← read_time n1.1
  let n2 ← nextPart n1.2
  let id ← read_userid n2.1
  let n3 ← nextPart n2.2
  let x ← read_int 32 n3.1
  let n4 ← nextPart n3.2
  let y ← read_int 32 n4.1
  let n5 ← nextPart n4.2
  let index ← read_int 16 n5.1
  let n6 ← nextPart n5.2
  let action ← read_action n6.1
  match n6.2 with
  | d :: _ => if d = [] then pure () else throw (.TrailingData d)
  | [] => pure ()
  pure { time := time, pos := (x, y), index := index, action := action, id := id }

/-- Chunking of `PxlsFile::read_from`'s loop: `read_until(b'\n', ..)` reads
up to and including the next line feed (or to end of input); a read of zero
bytes ends the loop.  Each returned chunk therefore contains its line feed
terminator, except possibly the last. -/
def chunksAux : List Nat → List Nat → List (List Nat)
  | [], acc => if acc = [] then [] else [acc.reverse]
  | b :: r, acc =>
    if b = 10 then (acc.reverse ++ [10]) :: chunksAux r []
    else chunksAux r (b :: acc)

/-- All chunks produced by the `read_until` loop on the given input. -/
def chunksAfterLF (l : List Nat) : List (List Nat) := chunksAux l []

/-- First-error-aborting map over `Except`, modelling the `loop`/`?`
accumulation in `PxlsFile::read_from`. -/
def mapExcept (f : α → Except ε β) : List α → Except ε (List β)
  | [] => .ok []
  | a :: l => do
    let b ← f a
    let bs ← mapExcept f l
    pure (b :: bs)

/-- Model of `PxlsFile::read_from`: split the stream into line chunks and
decode each in order, aborting on the first failure. -/
def PxlsFile.read_from (data : List Nat) : Except PxlsError (List PxlsLine) :=
  mapExcept PxlsLine.parse_bytes (chunksAfterLF data)

/-!  Encoding (the `Display` implementations).  -/

/-- Fuel-based digit emitter (structural, so it reduces in the kernel). -/
def natDecAux : Nat → Nat → List Nat → List Nat
  | 0, _, acc => acc
  | fuel + 1, n, acc =>
    if n < 10 then (48 + n) :: acc
    else natDecAux fuel (n / 10) ((48 + n % 10) :: acc)

/-- Decimal digits of a natural number (Rust `Display` for unsigned ints). -/
def natDec (n : Nat) : List Nat := natDecAux (n + 1) n []

/-- Two-digit zero-padded field (chrono numeric formatting, width 2). -/
def pad2c (n : Nat) : List Nat := [48 + n / 10 % 10, 48 + n % 10]

/-- Three-digit zero-padded milliseconds (`%3f` formatting). -/
def pad3c (n : Nat) : List Nat := [48 + n / 100 % 10, 48 + n / 10 % 10, 48 + n % 10]

/-- Four-digit zero-padded field (used for years 0..=9999). -/
def pad4c (n : Nat) : List Nat := [48 + n / 1000 % 10, 48 + n / 100 % 10, 48 + n / 10 % 10, 48 + n % 10]

/-- Model of chrono's `%Y` formatting: zero-padded to 4 digits; years
outside 0..=9999 are printed with an explicit sign. -/
def encodeYear (y : Int) : List Nat :=
  if 0 ≤ y && y ≤ 9999 then pad4c y.toNat
  else if y < 0 then 45 :: natDec (-y).toNat
  else 43 :: natDec y.toNat

/-- Inverse civil-calendar computation (day number to (year, month, day)),
the standard civil-from-days algorithm matching `daysFromCivil`. -/
def civilFromDays (z0 : Int) : Int × Nat × Nat :=
  let z := z0 + 719468
  let era : Int := z / 146097
  let doe : Nat := (z - era * 146097).toNat
  let yoe : Nat := (doe - doe / 1460 + doe / 36524 - doe / 146096) / 365
  let yr : Int := (yoe : Int) + era * 400
  let doy : Nat := doe - (365 * yoe + yoe / 4 - yoe / 100)
  let mp : Nat := (5 * doy + 2) / 153
  let d : Nat := doy - (153 * mp + 2) / 5 + 1
  let m : Nat := if mp < 10 then mp + 3 else mp - 9
  (if m ≤ 2 then yr + 1 else yr, m, d)

/-- Model of `DateTime::from_timestamp_millis(t).unwrap().format(DATE_FMT)`:
split `t` into a day number and milliseconds of day (floor division, as
`div_euclid`/`rem_euclid` in chrono), recover the civil date, and print the
canonical zero-padded text. -/
def encodeDateTime (t : Int) : List Nat :=
  let days : Int := t / 86400000
  let msod : Nat := (t % 86400000).toNat
  let c := civilFromDays days
  encodeYear c.1 ++ [45] ++ pad2c c.2.1 ++ [45] ++ pad2c c.2.2 ++ [32]
    ++ pad2c (msod / 3600000) ++ [58] ++ pad2c (msod / 60000 % 60) ++ [58]
    ++ pad2c (msod / 1000 % 60) ++ [44] ++ pad3c (msod % 1000)

/-- The `Display` implementation for `PxlsAction` (lines 18-29 of
`io/pxls.rs`); note `Rollback => "mod overwrite"` and
`Overwrite => "rollback"`. -/
def encodeAction : PxlsAction → List Nat
  | .Place => ascii "user place"
  | .Undo => ascii "user undo"
  | .Rollback => ascii "mod overwrite"
  | .RollbackUndo => ascii "rollback undo"
  | .Overwrite => ascii "rollback"
  | .Nuke => ascii "console nuke"

/-- The `Display` implementation for `PxlsLine`: tab-joined fields in the
fixed order time, id, x, y, index, action.  (The `unwrap` on
`from_timestamp_millis` is modelled separately by
`fromTimestampMillisIsSome`; this function gives the text produced when the
unwrap succeeds.) -/
def PxlsLine.encode (e : PxlsLine) : List Nat :=
  encodeDateTime e.time ++ 9 :: e.id.asBytes ++ 9 :: natDec e.pos.1
    ++ 9 :: natDec e.pos.2 ++ 9 :: natDec e.index ++ 9 :: encodeAction e.action

/-- Smallest millisecond timestamp accepted by
`DateTime::from_timestamp_millis` (midnight of chrono's minimal date,
year -262144, January 1). -/
def minTimestampMs : Int := 86400000 * daysFromCivil (-262144) 1 1

/-- Largest millisecond timestamp accepted by
`DateTime::from_timestamp_millis` (the last millisecond of chrono's maximal
date, year 262143, December 31). -/
def maxTimestampMs : Int := 86400000 * daysFromCivil 262143 12 31 + 86399999

/-- Success predicate of `DateTime::from_timestamp_millis`: it returns
`Some` exactly when the timestamp lies in chrono's representable range. -/
def fromTimestampMillisIsSome (t : Int) : Bool :=
  decide (minTimestampMs ≤ t) && decide (t ≤ maxTimestampMs)

/-!  Models of the aggregation and output mapping in `main.rs`.  -/

/-- The placement record handed to the output codec (`main.rs`). -/
structure Placement where
  pos : Nat × Nat
  time : Int
  color_index : Nat
deriving DecidableEq, Repr

/-- Model of the per-event output mapping in `main.rs` (lines 102-108):
`color_index = if line.index == 255 { 0 } else { line.index + 1 }`, in
`u16` arithmetic (modelled with wrap-around, Rust release semantics). -/
def placementOf (l : PxlsLine) : Placement :=
  { pos := l.pos
    time := l.time
    color_index := if l.index = 255 then 0 else (l.index + 1) % 65536 }

/-- The derived timeline values computed in `main.rs` (lines 36-42). -/
structure TimelineSummary where
  width : Nat
  height : Nat
  start : Int
  stop : Int
deriving DecidableEq, Repr

/-- Model of the summary computation in `main.rs`: start/stop are the
timestamps of the first and last line; the size fold takes the running
maximum of `pos + 1` in `u32` arithmetic (modelled with wrap-around, Rust
release semantics) starting from `(0, 0)`.  `main` bails out before this
point when the log is empty, hence the `Option`. -/
def timelineSummary (log : List PxlsLine) : Option TimelineSummary :=
  match log with
  | [] => none
  | e :: rest =>
    let size := (e :: rest).foldl
      (fun acc l => (max acc.1 ((l.pos.1 + 1) % 4294967296),
                     max acc.2 ((l.pos.2 + 1) % 4294967296))) (0, 0)
    some { width := size.1, height := size.2,
           start := e.time, stop := ((e :: rest).getLastD e).time }

/-- The record of the repository's `test_read_line_sha256` test. -/
def recHash : List Nat :=
  ascii "2021-03-19 08:03:47,016\t982b5ed74632b00ad8d75ae4995117b5f93ac9432fe1a3c73444132fc0e1248f\t773\t1761\t4\tuser undo"

/-- The record of the repository's `test_read_line_username` test. -/
def recEtos : List Nat := ascii "2024-01-21 01:30:47,016\tEtos2\t43\t21\t3\tconsole nuke"

/-- The event decoded from `recHash`. -/
def evHash : PxlsLine :=
  { time := 1616141027016, pos := (773, 1761), index := 4, action := .Undo,
    id := .Sha256 (ascii "982b5ed74632b00ad8d75ae4995117b5f93ac9432fe1a3c73444132fc0e1248f") }

/-- The event decoded from `recEtos`. -/
def evEtos : PxlsLine :=
  { time := 1705800647016, pos := (43, 21), index := 3, action := .Nuke,
    id := .Username (ascii "Etos2") }

/-- The two test records concatenated with a line feed, as in `test_read_file`. -/
def streamTwo : List Nat := recHash ++ 10 :: recEtos

/-- The `recEtos` record with `console nuke` replaced by the label `rollback`. -/
def recRb : List Nat := ascii "2024-01-21 01:30:47,016\tEtos2\t43\t21\t3\trollback"

/-- The `recEtos` record with `console nuke` replaced by the label `mod overwrite`. -/
def recMow : List Nat := ascii "2024-01-21 01:30:47,016\tEtos2\t43\t21\t3\tmod overwrite"

/-- The event the code decodes from `recRb` (action variant `Rollback`). -/
def evRb : PxlsLine :=
  { time := 1705800647016, pos := (43, 21), index := 3, action := .Rollback,
    id := .Username (ascii "Etos2") }

/-- The event the code decodes from `recMow` (action variant `Overwrite`). -/
def evOw : PxlsLine :=
  { time := 1705800647016, pos := (43, 21), index := 3, action := .Overwrite,
    id := .Username (ascii "Etos2") }

/-- An event carrying the maximal `u32` x coordinate. -/
def evMaxX : PxlsLine :=
  { time := 0, pos := (4294967295, 0), index := 0, action := .Place, id := .Username [] }

/-- The `evEtos` event with the eraser sentinel palette index 255. -/
def ev255 : PxlsLine := { evEtos with index := 255 }

/-- A 64-byte identity field (the content hash of the repository's tests). -/
def hashField64 : List Nat :=
  ascii "982b5ed74632b00ad8d75ae4995117b5f93ac9432fe1a3c73444132fc0e1248f"

/-- The canonical textual timestamp with an arbitrary fractional part:
four-digit year, two-digit month/day/hour/minute/second with the literal
separators of `DATE_FMT`, followed by a comma and the given fraction bytes. -/
def timeField (y mo d h mi s : Nat) (frac : List Nat) : List Nat :=
  pad4c y ++ 45 :: (pad2c mo ++ 45 :: (pad2c d ++ 32 :: (pad2c h ++ 58 ::
    (pad2c mi ++ 58 :: (pad2c s ++ 44 :: frac)))))

/-!  General helper lemmas.  -/

@[simp] theorem exceptBind_ok {ε α β : Type} (a : α) (f : α → Except ε β) :
    (Except.ok a >>= f) = f a := rfl

@[simp] theorem exceptBind_error {ε α β : Type} (e : ε) (f : α → Except ε β) :
    ((Except.error e : Except ε α) >>= f) = Except.error e := rfl

@[simp] theorem optionBind_some {α β : Type} (a : α) (f : α → Option β) :
    (some a >>= f) = f a := rfl

@[simp] theorem optionBind_none {α β : Type} (f : α → Option β) :
    ((none : Option α) >>= f) = none := rfl

/-- Tab (9) and line feed (10) are interchangeable for `splitSep`. -/
theorem splitSep_tab_lf (a b : List Nat) :
    splitSep (a ++ 9 :: b) = splitSep (a ++ 10 :: b) := by
  induction a with
  | nil => simp [splitSep, isSep]
  | cons x xs ih => simp only [List.cons_append, splitSep, List.append_eq, ih]

/-!  Claim C1.  -/

/-- Claim C1, counterexample: the decoder maps the label `mod overwrite` to
`Overwrite` (not `Rollback`) and the label `rollback` to `Rollback` (not
`Overwrite`), refuting the claimed direction of the table. -/
theorem read_action_label_swap_counterexample :
    read_action (ascii "mod overwrite") = .ok .Overwrite ∧
    read_action (ascii "mod overwrite") ≠ .ok .Rollback ∧
    read_action (ascii "rollback") = .ok .Rollback ∧
    read_action (ascii "rollback") ≠ .ok .Overwrite := by
  refine ⟨by decide, by decide, by decide, by decide⟩

/-- Claim C1, amended: decoding maps `user place` to `Place`, `user undo`
to `Undo`, `mod overwrite` to `Overwrite`, `rollback undo` to
`RollbackUndo`, `rollback` to `Rollback`, `console nuke` to `Nuke`, and any
other (UTF-8 valid) label fails with `UnknownAction` carrying the offending
text. -/
theorem read_action_table :
    read_action (ascii "user place") = .ok .Place ∧
    read_action (ascii "user undo") = .ok .Undo ∧
    read_action (ascii "mod overwrite") = .ok .Overwrite ∧
    read_action (ascii "rollback undo") = .ok .RollbackUndo ∧
    read_action (ascii "rollback") = .ok .Rollback ∧
    read_action (ascii "console nuke") = .ok .Nuke ∧
    ∀ s, isValidUtf8 s = true →
      s ∉ [ascii "user place", ascii "user undo", ascii "mod overwrite",
           ascii "rollback undo", ascii "rollback", ascii "console nuke"] →
      read_action s = .error (.UnknownAction s) := by
  refine ⟨by decide, by decide, by decide, by decide, by decide, by decide, ?_⟩
  intro s hv hmem
  simp only [List.mem_cons, List.not_mem_nil, or_false, not_or] at hmem
  obtain ⟨n1, n2, n3, n4, n5, n6⟩ := hmem
  simp [read_action, hv, n1, n2, n3, n4, n5, n6]

/-- Claim C1, witness: the truncated label `nuke` fails with `UnknownAction`
carrying `nuke`. -/
theorem read_action_table_witness :
    read_action (ascii "nuke") = .error (.UnknownAction (ascii "nuke")) :=
  read_action_table.2.2.2.2.2.2 (ascii "nuke") (by decide) (by decide)

/-!  Claim C2.  -/

/-- Claim C2 (round trip): violated by the code.  The record ending in the
label `rollback` decodes to an event with action `Rollback`, which encodes
back to a record ending in `mod overwrite`, not the original; that record in
turn decodes to a different event (action `Overwrite`).  So neither
`encode(decode(r)) = r` nor `decode(encode(e)) = e` holds. -/
theorem roundtrip_rollback_violation :
    PxlsLine.parse_bytes recRb = .ok evRb ∧
    evRb.action = .Rollback ∧
    PxlsLine.encode evRb = recMow ∧
    recMow ≠ recRb ∧
    PxlsLine.parse_bytes recMow = .ok evOw ∧
    evOw ≠ evRb ∧
    evOw.action = .Overwrite := by
  refine ⟨by decide, by decide, by decide, by decide, by decide, by decide, by decide⟩

/-!  Claim C3.  -/

/-- Claim C3, counterexample: a line feed standing in place of the first
tab still separates the time field from the identity field, and the record
decodes successfully — refuting the claim that a line feed inside the first
five fields is not treated as a separator. -/
theorem lf_separates_first_field_counterexample :
    PxlsLine.parse_bytes
      (ascii "2021-03-19 08:03:47,016\n982b5ed74632b00ad8d75ae4995117b5f93ac9432fe1a3c73444132fc0e1248f\t773\t1761\t4\tuser undo") =
      .ok evHash := by decide

/-- Claim C3, amended: the decoder splits on horizontal tab and line feed
at every position of the record — replacing any single tab separator by a
line feed (or vice versa) anywhere yields the identical decode result. -/
theorem parse_bytes_tab_lf_interchangeable (a b : List Nat) :
    PxlsLine.parse_bytes (a ++ 9 :: b) = PxlsLine.parse_bytes (a ++ 10 :: b) := by
  unfold PxlsLine.parse_bytes
  rw [splitSep_tab_lf]

/-!  Claim C4.  -/

/-- Claim C4, counterexample: appending an empty seventh component and a
non-empty eighth component (`\t\tXX`) to a valid record leaves a non-empty
component after the sixth field, yet decoding succeeds instead of failing
with `TrailingData`. -/
theorem trailing_component_counterexample :
    (splitSep (recEtos ++ ascii "\t\tXX"))[7]? = some (ascii "XX") ∧
    ascii "XX" ≠ [] ∧
    PxlsLine.parse_bytes (recEtos ++ ascii "\t\tXX") = .ok evEtos := by
  refine ⟨by decide, by decide, by decide⟩

/-- Claim C4, amended: given six successfully decoded fields, the decoder
inspects only the seventh component: a present non-empty seventh component
fails with `TrailingData` carrying it, a present empty seventh component or
no seventh component succeeds, and components after the seventh are never
examined. -/
theorem parse_bytes_trailing_behavior
    (f1 f2 f3 f4 f5 f6 : List Nat) (rest : List (List Nat)) (data : List Nat)
    (t : Int) (uid : PxlsUserId) (x y idx : Nat) (act : PxlsAction)
    (hsplit : splitSep data = f1 :: f2 :: f3 :: f4 :: f5 :: f6 :: rest)
    (h1 : read_time f1 = .ok t) (h2 : read_userid f2 = .ok uid)
    (h3 : read_int 32 f3 = .ok x) (h4 : read_int 32 f4 = .ok y)
    (h5 : read_int 16 f5 = .ok idx) (h6 : read_action f6 = .ok act) :
    PxlsLine.parse_bytes data =
      match rest.head? with
      | some c =>
        if c = [] then .ok ⟨t, (x, y), idx, act, uid⟩
        else .error (.TrailingData c)
      | none => .ok ⟨t, (x, y), idx, act, uid⟩ := by
  unfold PxlsLine.parse_bytes
  rw [hsplit]
  cases rest with
  | nil =>
    simp [nextPart, h1, h2, h3, h4, h5, h6, pure, Except.pure]
  | cons c rs =>
    by_cases hc : c = [] <;>
      simp [nextPart, h1, h2, h3, h4, h5, h6, hc, pure, Except.pure, throw, throwThe,
        MonadExceptOf.throw]

/-- Claim C4, witness: a non-empty seventh component `XX` after a valid
record fails with `TrailingData XX`. -/
theorem parse_bytes_trailing_behavior_witness :
    PxlsLine.parse_bytes (recEtos ++ ascii "\tXX") =
      .error (.TrailingData (ascii "XX")) := by
  have h := parse_bytes_trailing_behavior
    (ascii "2024-01-21 01:30:47,016") (ascii "Etos2") (ascii "43") (ascii "21")
    (ascii "3") (ascii "console nuke") [ascii "XX"] (recEtos ++ ascii "\tXX")
    1705800647016 (.Username (ascii "Etos2")) 43 21 3 .Nuke
    (by decide) (by decide) (by decide) (by decide) (by decide) (by decide) (by decide)
  simpa using h

/-!  Claim C6.  -/

/-- Claim C6: the placement record emitted for an event preserves position
and time, and carries `colorIndex = 0` when the source palette index is 255
and `colorIndex = sourceIndex + 1` (in 16-bit arithmetic) otherwise. -/
theorem placement_color_index (l : PxlsLine) :
    (placementOf l).pos = l.pos ∧ (placementOf l).time = l.time ∧
    (l.index = 255 → (placementOf l).color_index = 0) ∧
    (l.index ≠ 255 → (placementOf l).color_index = (l.index + 1) % 65536) := by
  refine ⟨rfl, rfl, fun h => ?_, fun h => ?_⟩ <;> simp [placementOf, h]

/-- Claim C6, witness: index 255 maps to colour slot 0 and index 3 maps to
colour slot 4. -/
theorem placement_color_index_witness :
    (placementOf ev255).color_index = 0 ∧ (placementOf evEtos).color_index = 4 :=
  ⟨(placement_color_index ev255).2.2.1 (by decide),
   ((placement_color_index evEtos).2.2.2 (by decide)).trans (by decide)⟩

/-!  Claim C8.  -/

/-- Claim C8: a UTF-8 valid identity field of byte length exactly 64
decodes to the content-hash variant holding the field text, and any other
length decodes to the username variant holding the field text. -/
theorem read_userid_classification (data : List Nat) (h : isValidUtf8 data = true) :
    (data.length = 64 → read_userid data = .ok (.Sha256 data)) ∧
    (data.length ≠ 64 → read_userid data = .ok (.Username data)) := by
  constructor <;> intro h64 <;> simp [read_userid, h, h64]

/-- Claim C8, witness: the 64-byte hash field classifies as `Sha256` and
the 5-byte name `Etos2` classifies as `Username`. -/
theorem read_userid_classification_witness :
    read_userid hashField64 = .ok (.Sha256 hashField64) ∧
    read_userid (ascii "Etos2") = .ok (.Username (ascii "Etos2")) :=
  ⟨(read_userid_classification hashField64 (by decide)).1 (by decide),
   (read_userid_classification (ascii "Etos2") (by decide)).2 (by decide)⟩

/-!  Claim C5.  -/

/-- A fold over pairs splits into two independent folds. -/
theorem foldl_pair {α β γ : Type} (f : β → α → β) (g : γ → α → γ)
    (l : List α) (a : β) (b : γ) :
    l.foldl (fun p x => (f p.1 x, g p.2 x)) (a, b) = (l.foldl f a, l.foldl g b) := by
  induction l generalizing a b with
  | nil => rfl
  | cons x xs ih => simp [List.foldl, ih]

/-- When every increment stays below the modulus the wrap-around is inert. -/
theorem foldl_max_mod_eq {α : Type} (v : α → Nat) (l : List α)
    (hb : ∀ e ∈ l, v e < 4294967295) (a : Nat) :
    l.foldl (fun m e => max m ((v e + 1) % 4294967296)) a =
      l.foldl (fun m e => max m (v e + 1)) a := by
  induction l generalizing a with
  | nil => rfl
  | cons x xs ih =>
    have hx : (v x + 1) % 4294967296 = v x + 1 :=
      Nat.mod_eq_of_lt (by have := hb x (by simp); omega)
    simp only [List.foldl, hx]
    exact ih (fun e he => hb e (by simp [he])) _

/-- A running maximum of successors is the successor of the running maximum. -/
theorem foldl_max_succ {α : Type} (v : α → Nat) (l : List α) (a : Nat) :
    l.foldl (fun m e => max m (v e + 1)) (a + 1) =
      l.foldl (fun m e => max m (v e)) a + 1 := by
  induction l generalizing a with
  | nil => rfl
  | cons x xs ih =>
    simp only [List.foldl, Nat.succ_max_succ]
    exact ih (max a (v x))

/-- On a non-empty list, folding `max` of `v+1` from 0 gives the maximum of
`v` plus one. -/
theorem foldl_max_nonempty {α : Type} (v : α → Nat) (x : α) (xs : List α) :
    (x :: xs).foldl (fun m e => max m (v e + 1)) 0 =
      (x :: xs).foldl (fun m e => max m (v e)) 0 + 1 := by
  simp only [List.foldl, Nat.zero_max]
  exact foldl_max_succ v xs (v x)

/-- The `getLastD` used by the model is the `getLast` of a non-empty list. -/
theorem getLastD_cons_eq_getLast (x : PxlsLine) (l : List PxlsLine) :
    (x :: l).getLastD x = (x :: l).getLast (by simp) := by
  rw [List.getLastD_eq_getLast?, List.getLast?_eq_getLast (x :: l) (by simp)]
  rfl

/-- Claim C5, counterexample: an event at the maximal `u32` x coordinate
4294967295 makes the 32-bit increment wrap, so the summary reports width 0
rather than max(x)+1 = 4294967296. -/
theorem timeline_width_wrap_counterexample :
    timelineSummary [evMaxX] = some { width := 0, height := 1, start := 0, stop := 0 } ∧
    (0 : Nat) ≠ 4294967296 := by
  refine ⟨by decide, by decide⟩

/-- Claim C5, amended: for every non-empty event log whose coordinates are
all at most 2^32 - 2 (so the `u32` increment cannot overflow), the summary
yields width = max(x)+1, height = max(y)+1, start = the timestamp of the
first element and stop = the timestamp of the last element. -/
theorem timelineSummary_correct (log : List PxlsLine) (hne : log ≠ [])
    (hx : ∀ e ∈ log, e.pos.1 < 4294967295)
    (hy : ∀ e ∈ log, e.pos.2 < 4294967295) :
    timelineSummary log =
      some { width := (log.map (fun e => e.pos.1)).foldl max 0 + 1,
             height := (log.map (fun e => e.pos.2)).foldl max 0 + 1,
             start := (log.head hne).time,
             stop := (log.getLast hne).time } := by
  cases log with
  | nil => exact absurd rfl hne
  | cons e rest =>
    simp only [timelineSummary]
    rw [foldl_pair (fun m l => max m ((l.pos.1 + 1) % 4294967296))
      (fun m l => max m ((l.pos.2 + 1) % 4294967296)) (e :: rest) 0 0]
    rw [foldl_max_mod_eq (fun l => l.pos.1) (e :: rest) hx 0,
      foldl_max_mod_eq (fun l => l.pos.2) (e :: rest) hy 0,
      foldl_max_nonempty (fun l => l.pos.1) e rest,
      foldl_max_nonempty (fun l => l.pos.2) e rest,
      getLastD_cons_eq_getLast]
    simp [List.foldl_map, List.head]

/-- Claim C5, witness: the two-record example log yields width 774,
height 1762, start 1616141027016 and end 1705800647016. -/
theorem timelineSummary_correct_witness :
    timelineSummary [evHash, evEtos] =
      some { width := 774, height := 1762,
             start := 1616141027016, stop := 1705800647016 } :=
  (timelineSummary_correct [evHash, evEtos] (by decide) (by decide) (by decide)).trans
    (by decide)

/-!  Claim C7.  -/

/-- Success characterisation of `mapExcept`: the result is `ok out` exactly
when `out` pairs with the inputs elementwise in order. -/
theorem mapExcept_ok_iff {α β : Type} {ε : Type} (f : α → Except ε β)
    (l : List α) (out : List β) :
    mapExcept f l = .ok out ↔
      List.Forall₂ (fun a b => f a = .ok b) l out := by
  induction l generalizing out with
  | nil =>
    cases out with
    | nil => simp [mapExcept]
    | cons b bs => simp [mapExcept]
  | cons a l ih =>
    constructor
    · intro h
      cases hfa : f a with
      | error e => rw [mapExcept, hfa] at h; simp at h
      | ok b =>
        cases hml : mapExcept f l with
        | error e => rw [mapExcept, hfa] at h; simp [hml] at h
        | ok bs =>
          rw [mapExcept, hfa] at h
          simp only [exceptBind_ok, hml, pure, Except.pure] at h
          cases out with
          | nil => exact absurd h (by simp)
          | cons b2 bs2 =>
            have hinj := Except.ok.inj h
            have hb : b = b2 := (List.cons.inj hinj).1
            have hbs : bs = bs2 := (List.cons.inj hinj).2
            subst hb; subst hbs
            exact List.Forall₂.cons hfa ((ih bs).mp hml)
    · intro h
      cases h with
      | cons hab htl =>
        rw [mapExcept, hab]
        simp [(ih _).mpr htl, pure, Except.pure]

/-- First-error propagation of `mapExcept`: if every element before `a`
succeeds and `a` fails with `err`, the whole map fails with `err`. -/
theorem mapExcept_first_error {α β : Type} {ε : Type} (f : α → Except ε β)
    (pre : List α) (a : α) (post : List α) (err : ε)
    (hpre : ∀ z ∈ pre, ∃ b, f z = .ok b) (ha : f a = .error err) :
    mapExcept f (pre ++ a :: post) = .error err := by
  induction pre with
  | nil => simp [mapExcept, ha]
  | cons z zs ih =>
    obtain ⟨b, hb⟩ := hpre z (by simp)
    rw [List.cons_append, mapExcept, hb]
    simp [ih (fun w hw => hpre w (by simp [hw]))]

/-- Claim C7: the log reader decodes records in input order; it returns
`ok lines` exactly when the chunks and the events pair off in stream order
(one event per record), and at the first chunk that fails to decode it
returns that chunk's error, with no partial log. -/
theorem read_from_order_and_abort (data : List Nat) :
    (∀ lines, PxlsFile.read_from data = .ok lines ↔
       List.Forall₂ (fun c e => PxlsLine.parse_bytes c = .ok e)
         (chunksAfterLF data) lines) ∧
    (∀ pre c post err, chunksAfterLF data = pre ++ c :: post →
       (∀ c2 ∈ pre, ∃ e, PxlsLine.parse_bytes c2 = .ok e) →
       PxlsLine.parse_bytes c = .error err →
       PxlsFile.read_from data = .error err) := by
  constructor
  · intro lines
    exact mapExcept_ok_iff PxlsLine.parse_bytes (chunksAfterLF data) lines
  · intro pre c post err hchunks hpre hc
    unfold PxlsFile.read_from
    rw [hchunks]
    exact mapExcept_first_error PxlsLine.parse_bytes pre c post err hpre hc

/-- Claim C7, witness: the two-record example stream decodes to the ordered
two-event log. -/
theorem read_from_order_and_abort_witness :
    PxlsFile.read_from streamTwo = .ok [evHash, evEtos] := by
  refine ((read_from_order_and_abort streamTwo).1 [evHash, evEtos]).mpr ?_
  have hch : chunksAfterLF streamTwo = [recHash ++ [10], recEtos] := by decide
  rw [hch]
  exact List.Forall₂.cons (by decide) (List.Forall₂.cons (by decide) List.Forall₂.nil)

/-!  Claim C9: helper lemmas about the canonical textual form.  -/

/-- Digits are not whitespace. -/
theorem isWs_false_of_digit (b : Nat) (hb : isDigit b = true) : isWs b = false := by
  simp only [isDigit, Bool.and_eq_true, decide_eq_true_eq] at hb
  simp only [isWs, Bool.or_eq_false_iff, decide_eq_false_iff_not]
  omega

/-- Trimming does nothing on a digit-headed byte list. -/
theorem trimStart_digit (b : Nat) (r : List Nat) (hb : isDigit b = true) :
    trimStart (b :: r) = b :: r := by
  simp [trimStart, List.dropWhile, isWs_false_of_digit b hb]

/-- Trimming drops a leading whitespace byte. -/
theorem trimStart_ws (b : Nat) (r : List Nat) (hb : isWs b = true) :
    trimStart (b :: r) = trimStart r := by
  simp [trimStart, List.dropWhile, hb]

/-- Every byte of a zero-padded four-digit field is an ASCII digit. -/
theorem pad4c_bytes (n : Nat) : ∀ x ∈ pad4c n, 48 ≤ x ∧ x ≤ 57 := by
  intro x hx
  simp only [pad4c, List.mem_cons, List.not_mem_nil, or_false] at hx
  rcases hx with rfl | rfl | rfl | rfl <;> exact ⟨by omega, by omega⟩

/-- Every byte of a zero-padded two-digit field is an ASCII digit. -/
theorem pad2c_bytes (n : Nat) : ∀ x ∈ pad2c n, 48 ≤ x ∧ x ≤ 57 := by
  intro x hx
  simp only [pad2c, List.mem_cons, List.not_mem_nil, or_false] at hx
  rcases hx with rfl | rfl <;> exact ⟨by omega, by omega⟩

/-- Digit view of `pad4c_bytes`. -/
theorem pad4c_digits (n : Nat) : ∀ x ∈ pad4c n, isDigit x = true := by
  intro x hx
  have := pad4c_bytes n x hx
  simp only [isDigit, Bool.and_eq_true, decide_eq_true_eq]
  omega

/-- Digit view of `pad2c_bytes`. -/
theorem pad2c_digits (n : Nat) : ∀ x ∈ pad2c n, isDigit x = true := by
  intro x hx
  have := pad2c_bytes n x hx
  simp only [isDigit, Bool.and_eq_true, decide_eq_true_eq]
  omega

/-- The bounded digit scan consumes an all-digit prefix of exactly the
requested width and leaves the rest. -/
theorem takeDigits_exact (ds rest : List Nat) (h : ∀ b ∈ ds, isDigit b = true) :
    takeDigits ds.length (ds ++ rest) = (ds, rest) := by
  induction ds with
  | nil => cases rest <;> simp [takeDigits]
  | cons x xs ih =>
    have hx : isDigit x = true := h x (by simp)
    simp [takeDigits, hx, ih (fun b hb => h b (by simp [hb]))]

/-- `scanNum` on an exact-width all-digit prefix yields its value. -/
theorem scanNum_exact (w : Nat) (ds rest : List Nat) (hw : ds.length = w)
    (hne : ds ≠ []) (h : ∀ b ∈ ds, isDigit b = true)
    (hv : digitsVal ds ≤ 9223372036854775807) :
    scanNum 1 w (ds ++ rest) = some (digitsVal ds, rest) := by
  subst hw
  have hlen : ¬ (ds.length < 1) := by
    cases ds with
    | nil => exact absurd rfl hne
    | cons x xs => simp
  simp [scanNum, takeDigits_exact ds rest h, hlen, hv]

/-- Value of a zero-padded four-digit field. -/
theorem digitsVal_pad4c (n : Nat) (hn : n ≤ 9999) : digitsVal (pad4c n) = n := by
  simp [digitsVal, pad4c, List.foldl]
  omega

/-- Value of a zero-padded two-digit field. -/
theorem digitsVal_pad2c (n : Nat) (hn : n ≤ 99) : digitsVal (pad2c n) = n := by
  simp [digitsVal, pad2c, List.foldl]
  omega

/-- The year item on a canonical four-digit year consumes exactly the four
digits and yields the year. -/
theorem scanYear_pad4c (y : Nat) (hy : y ≤ 9999) (rest : List Nat) :
    scanYear (pad4c y ++ rest) = some ((y : Int), rest) := by
  have h1 : pad4c y ++ rest = (48 + y / 1000 % 10) :: ((48 + y / 100 % 10) ::
      ((48 + y / 10 % 10) :: ((48 + y % 10) :: rest))) := by simp [pad4c]
  have hd : isDigit (48 + y / 1000 % 10) = true := by
    simp only [isDigit, Bool.and_eq_true, decide_eq_true_eq]
    omega
  unfold scanYear
  rw [h1, trimStart_digit _ _ hd]
  dsimp only
  rw [if_neg (by omega), if_neg (by omega), ← h1,
    scanNum_exact 4 (pad4c y) rest (by simp [pad4c]) (by simp [pad4c]) (pad4c_digits y)
      (by rw [digitsVal_pad4c y hy]; omega)]
  simp [digitsVal_pad4c y hy]

/-- The unsigned two-digit items on canonical zero-padded fields consume
exactly the two digits and yield the value. -/
theorem scanUnsigned_pad2c (n : Nat) (hn : n ≤ 99) (rest : List Nat) :
    scanUnsigned 2 (pad2c n ++ rest) = some (n, rest) := by
  have h1 : pad2c n ++ rest = (48 + n / 10 % 10) :: ((48 + n % 10) :: rest) := by
    simp [pad2c]
  have hd : isDigit (48 + n / 10 % 10) = true := by
    simp only [isDigit, Bool.and_eq_true, decide_eq_true_eq]
    omega
  unfold scanUnsigned
  rw [h1, trimStart_digit _ _ hd, ← h1,
    scanNum_exact 2 (pad2c n) rest (by simp [pad2c]) (by simp [pad2c]) (pad2c_digits n)
      (by rw [digitsVal_pad2c n hn]; omega)]
  rw [digitsVal_pad2c n hn]

/-- The space item of the format drops the canonical single space and stops
at the following zero-padded digit. -/
theorem trimStart_space_pad2c (n : Nat) (r : List Nat) :
    trimStart (32 :: (pad2c n ++ r)) = pad2c n ++ r := by
  have h1 : pad2c n ++ r = (48 + n / 10 % 10) :: ((48 + n % 10) :: r) := by simp [pad2c]
  rw [trimStart_ws 32 _ (by decide), h1, trimStart_digit _ _ (by
    simp only [isDigit, Bool.and_eq_true, decide_eq_true_eq]
    omega)]

/-- A canonical record time whose fraction has exactly two digits fails the
`%3f` item (which demands exactly three), so the whole item parse fails. -/
theorem parseDtItems_two_digit_frac (y mo d h mi s a b : Nat)
    (hy : y ≤ 9999) (hmo : mo ≤ 99) (hd : d ≤ 99) (hh : h ≤ 99)
    (hmi : mi ≤ 99) (hs : s ≤ 99) (ha : isDigit a = true) (hb : isDigit b = true) :
    parseDtItems (timeField y mo d h mi s [a, b]) = none := by
  unfold timeField parseDtItems
  rw [scanYear_pad4c y hy]
  simp only [optionBind_some]
  rw [show expectByte 45 ((((y : Int), 45 :: (pad2c mo ++ 45 :: (pad2c d ++ 32 ::
    (pad2c h ++ 58 :: (pad2c mi ++ 58 :: (pad2c s ++ 44 :: [a, b])))))).2))
    = some (pad2c mo ++ 45 :: (pad2c d ++ 32 :: (pad2c h ++ 58 ::
      (pad2c mi ++ 58 :: (pad2c s ++ 44 :: [a, b]))))) from by simp [expectByte]]
  simp only [optionBind_some]
  rw [scanUnsigned_pad2c mo hmo]
  simp only [optionBind_some]
  rw [show expectByte 45 (((mo, 45 :: (pad2c d ++ 32 :: (pad2c h ++ 58 ::
    (pad2c mi ++ 58 :: (pad2c s ++ 44 :: [a, b])))))).2)
    = some (pad2c d ++ 32 :: (pad2c h ++ 58 :: (pad2c mi ++ 58 ::
      (pad2c s ++ 44 :: [a, b])))) from by simp [expectByte]]
  simp only [optionBind_some]
  rw [scanUnsigned_pad2c d hd]
  simp only [optionBind_some]
  rw [show trimStart (((d, 32 :: (pad2c h ++ 58 :: (pad2c mi ++ 58 ::
    (pad2c s ++ 44 :: [a, b]))))).2) = pad2c h ++ 58 :: (pad2c mi ++ 58 ::
    (pad2c s ++ 44 :: [a, b])) from trimStart_space_pad2c h _]
  rw [scanUnsigned_pad2c h hh]
  simp only [optionBind_some]
  rw [show expectByte 58 (((h, 58 :: (pad2c mi ++ 58 :: (pad2c s ++ 44 :: [a, b])))).2)
    = some (pad2c mi ++ 58 :: (pad2c s ++ 44 :: [a, b])) from by simp [expectByte]]
  simp only [optionBind_some]
  rw [scanUnsigned_pad2c mi hmi]
  simp only [optionBind_some]
  rw [show expectByte 58 (((mi, 58 :: (pad2c s ++ 44 :: [a, b]))).2)
    = some (pad2c s ++ 44 :: [a, b]) from by simp [expectByte]]
  simp only [optionBind_some]
  rw [scanUnsigned_pad2c s hs]
  simp only [optionBind_some]
  rw [show expectByte 44 (((s, 44 :: [a, b])).2) = some [a, b] from by simp [expectByte]]
  simp only [optionBind_some]
  rw [show scanNum 3 3 [a, b] = none from by simp [scanNum, takeDigits, ha, hb]]
  simp only [optionBind_none]

/-- All-ASCII byte lists are valid UTF-8. -/
theorem isValidUtf8_ascii (l : List Nat) (h : ∀ b ∈ l, b ≤ 127) :
    isValidUtf8 l = true := by
  induction l with
  | nil => rfl
  | cons x xs ih =>
    have hx : x ≤ 127 := h x (by simp)
    rw [isValidUtf8.eq_def]
    dsimp only
    rw [if_pos hx]
    exact ih (fun b hb => h b (by simp [hb]))

/-- Every byte of the canonical time text lies in the printable ASCII range. -/
theorem timeField_bytes (y mo d h mi s a b : Nat)
    (ha : isDigit a = true) (hb : isDigit b = true) :
    ∀ x ∈ timeField y mo d h mi s [a, b], 32 ≤ x ∧ x ≤ 127 := by
  intro x hx
  simp only [isDigit, Bool.and_eq_true, decide_eq_true_eq] at ha hb
  unfold timeField at hx
  rcases List.mem_append.mp hx with h1 | hx
  · have := pad4c_bytes y x h1; omega
  rcases List.mem_cons.mp hx with rfl | hx
  · omega
  rcases List.mem_append.mp hx with h1 | hx
  · have := pad2c_bytes mo x h1; omega
  rcases List.mem_cons.mp hx with rfl | hx
  · omega
  rcases List.mem_append.mp hx with h1 | hx
  · have := pad2c_bytes d x h1; omega
  rcases List.mem_cons.mp hx with rfl | hx
  · omega
  rcases List.mem_append.mp hx with h1 | hx
  · have := pad2c_bytes h x h1; omega
  rcases List.mem_cons.mp hx with rfl | hx
  · omega
  rcases List.mem_append.mp hx with h1 | hx
  · have := pad2c_bytes mi x h1; omega
  rcases List.mem_cons.mp hx with rfl | hx
  · omega
  rcases List.mem_append.mp hx with h1 | hx
  · have := pad2c_bytes s x h1; omega
  rcases List.mem_cons.mp hx with rfl | hx
  · omega
  rcases List.mem_cons.mp hx with rfl | hx
  · omega
  rcases List.mem_cons.mp hx with rfl | hx
  · omega
  exact absurd hx (List.not_mem_nil x)

/-- Splitting a record whose first field contains no separator bytes
detaches exactly that field at the first tab. -/
theorem splitSep_detach_first_field (l r : List Nat) (h : ∀ x ∈ l, isSep x = false) :
    splitSep (l ++ 9 :: r) = l :: splitSep r := by
  induction l with
  | nil => simp [splitSep, isSep]
  | cons x xs ih =>
    have hx : isSep x = false := h x (by simp)
    simp only [List.cons_append, splitSep, List.append_eq, hx, Bool.false_eq_true, if_false]
    rw [ih (fun z hz => h z (by simp [hz]))]

/-- Claim C9: a canonical timestamp whose fractional part has exactly two
millisecond digits (instead of the required three) makes `read_time` fail
with `InvalidTimestamp`, and makes decoding of any record built from it
fail with `InvalidTimestamp`. -/
theorem two_digit_millis_invalid (y mo d h mi s a b : Nat)
    (hy : y ≤ 9999) (hmo : mo ≤ 99) (hd : d ≤ 99) (hh : h ≤ 99)
    (hmi : mi ≤ 99) (hs : s ≤ 99) (ha : isDigit a = true) (hb : isDigit b = true) :
    read_time (timeField y mo d h mi s [a, b]) = .error .InvalidTimestamp ∧
    ∀ rest, PxlsLine.parse_bytes (timeField y mo d h mi s [a, b] ++ 9 :: rest) =
      .error .InvalidTimestamp := by
  have hbytes := timeField_bytes y mo d h mi s a b ha hb
  have hvalid : isValidUtf8 (timeField y mo d h mi s [a, b]) = true :=
    isValidUtf8_ascii _ (fun x hx => (hbytes x hx).2)
  have hparse : parseDateTime (timeField y mo d h mi s [a, b]) = none := by
    unfold parseDateTime
    rw [parseDtItems_two_digit_frac y mo d h mi s a b hy hmo hd hh hmi hs ha hb]
  have htime : read_time (timeField y mo d h mi s [a, b]) = .error .InvalidTimestamp := by
    simp [read_time, hvalid, hparse]
  refine ⟨htime, fun rest => ?_⟩
  have hsplit : splitSep (timeField y mo d h mi s [a, b] ++ 9 :: rest) =
      timeField y mo d h mi s [a, b] :: splitSep rest :=
    splitSep_detach_first_field _ _ (fun x hx => by
      have h32 := (hbytes x hx).1
      simp only [isSep, Bool.or_eq_false_iff, decide_eq_false_iff_not]
      omega)
  unfold PxlsLine.parse_bytes
  rw [hsplit]
  simp [nextPart, htime]

/-- Claim C9, witness: the concrete two-digit-fraction timestamp
`2021-03-19 08:03:47,01` fails with `InvalidTimestamp` (and the
construction really is that canonical text). -/
theorem two_digit_millis_invalid_witness :
    read_time (timeField 2021 3 19 8 3 47 [48, 49]) = .error .InvalidTimestamp ∧
    timeField 2021 3 19 8 3 47 [48, 49] = ascii "2021-03-19 08:03:47,01" :=
  ⟨(two_digit_millis_invalid 2021 3 19 8 3 47 48 49 (by decide) (by decide) (by decide)
      (by decide) (by decide) (by decide) (by decide) (by decide)).1, by decide⟩

/-!  Claim C10.  -/

/-- Bounds of the civil day number over chrono's supported dates. -/
theorem daysFromCivil_bounds (y : Int) (m d : Nat)
    (hy1 : -262144 ≤ y) (hy2 : y ≤ 262143) (hm1 : 1 ≤ m) (hm2 : m ≤ 12)
    (hd1 : 1 ≤ d) (hd2 : d ≤ daysInMonth y m) :
    -96465658 ≤ daysFromCivil y m d ∧ daysFromCivil y m d ≤ 95026601 := by
  unfold daysFromCivil
  interval_cases m <;> simp only [daysInMonth] at hd2 <;> simp <;> try omega
  · split at hd2 <;> omega

/-- Range of parsed timestamps: any validated field set yields a timestamp
no earlier than chrono's minimum; without a leap second it is also within
chrono's maximum, and even a leap second overshoots by at most one second. -/
theorem toMillis_bounds (f : DtFields) (hcv : checkValid f = true) :
    minTimestampMs ≤ toMillis f ∧
    (f.second ≤ 59 → toMillis f ≤ maxTimestampMs) ∧
    toMillis f ≤ maxTimestampMs + 1000 := by
  simp only [checkValid, Bool.and_eq_true, decide_eq_true_eq] at hcv
  obtain ⟨⟨⟨⟨⟨⟨⟨⟨⟨c1, c2⟩, c3⟩, c4⟩, c5⟩, c6⟩, c7⟩, c8⟩, c9⟩, c10⟩ := hcv
  have hb := daysFromCivil_bounds f.year f.month f.day c1 c2 c3 c4 c5 c6
  have hmin : minTimestampMs = -8334632851200000 := by decide
  have hmax : maxTimestampMs = 8210298412799999 := by decide
  unfold toMillis
  rw [hmin, hmax]
  by_cases h60 : f.second = 60 <;> simp [h60] <;> omega

/-- A successful `parseDateTime` implies the calendar validation held. -/
theorem parseDateTime_valid (s : List Nat) (f : DtFields)
    (h : parseDateTime s = some f) : checkValid f = true := by
  unfold parseDateTime at h
  cases hp : parseDtItems s with
  | none => rw [hp] at h; exact absurd h (by simp)
  | some g =>
    rw [hp] at h
    dsimp only at h
    by_cases hc : checkValid g = true
    · rw [if_pos hc] at h
      cases Option.some.inj h
      exact hc
    · rw [if_neg hc] at h
      exact absurd h (by simp)

/-- Claim C10, counterexample: the leap-second record time
`+262143-12-31 23:59:60,000` is accepted by the decoder's parse, but its
timestamp lies one past the range accepted by
`DateTime::from_timestamp_millis`, so the `unwrap` on the encode path
panics for the decoded event. -/
theorem encode_unwrap_panic_counterexample :
    read_time (ascii "+262143-12-31 23:59:60,000") = .ok 8210298412800000 ∧
    fromTimestampMillisIsSome 8210298412800000 = false ∧
    maxTimestampMs = 8210298412799999 := by
  refine ⟨by decide, by decide, by decide⟩

/-- Claim C10, amended: every timestamp produced by a successful
`read_time` whose parsed seconds field is at most 59 (i.e. any record not
using a leap second) lies within the range accepted by
`DateTime::from_timestamp_millis`, so the `unwrap` on the encode path
cannot fail for such events. -/
theorem read_time_no_leap_in_range (data : List Nat) (t : Int)
    (hok : read_time data = .ok t)
    (hnl : Option.all (fun f => decide (f.second ≤ 59)) (parseDateTime data) = true) :
    fromTimestampMillisIsSome t = true := by
  unfold read_time at hok
  by_cases hv : isValidUtf8 data = true
  · rw [if_pos hv] at hok
    cases hp : parseDateTime data with
    | none => rw [hp] at hok; exact absurd hok (by simp)
    | some f =>
      rw [hp] at hok
      have ht : t = toMillis f := (Except.ok.inj hok).symm
      have hcv := parseDateTime_valid data f hp
      rw [hp] at hnl
      have hs59 : f.second ≤ 59 := by simpa [Option.all] using hnl
      have hb := toMillis_bounds f hcv
      rw [ht]
      simp only [fromTimestampMillisIsSome, Bool.and_eq_true, decide_eq_true_eq]
      exact ⟨hb.1, hb.2.1 hs59⟩
  · rw [if_neg hv] at hok
    exact absurd hok (by simp)

/-- Claim C10, witness: the decoded example timestamp is in the encodable
range. -/
theorem read_time_no_leap_in_range_witness :
    fromTimestampMillisIsSome 1705800647016 = true :=
  read_time_no_leap_in_range (ascii "2024-01-21 01:30:47,016") 1705800647016
    (by decide) (by decide)
